import Mathlib

/-!
# Heimdall: the PrometheusRule template manager

A shallow embedding of `pkg/templates/promrules.go`:

* `NewPrometheusRuleTemplateManager` loads the template library from a directory;
* `CreateFromIngress` renders one PrometheusRule per recognised ingress annotation.

Conventions of the embedding.

* A Go `string` is a Lean `String`, read through its list of characters
  (annotation keys and file names are text, so a prefix of bytes is a prefix of
  characters, and a cutset of ASCII characters trims the same bytes).
* A Go `map[string]V` is an association list with pairwise distinct keys
  (`mapGet`, `mapSet`).  Go leaves the iteration order of a map unspecified: the
  annotations of an ingress are therefore given as the list of pairs in the order
  in which the `range` statement happens to visit them, and every theorem
  quantifies over all such lists.
* The file system (`filepath.Glob`, `template.ParseFiles`), a compiled template
  (`template.Execute`) and the YAML-or-JSON decoder are collaborators outside the
  package: the first and the last are arguments of the embedded functions, a
  compiled template is a function from the parameter object to rendered text or
  an error.
* A Go `error` is its message; `nil` is `none`.
* The calls the claims speak about (map lookups in the library, template
  executions, `log.Warnf`) are recorded, in program order, in a trace.
-/

namespace Heimdall

/-! ## Go library functions used by the package -/

/-- Go `strings.HasPrefix(s, pfx)`. -/
def HasPrefix (s pfx : String) : Bool :=
  pfx.data.isPrefixOf s.data

/-- Go `strings.TrimLeft(s, cutset)`: `s` without its leading characters that
occur in `cutset`. -/
def TrimLeft (s cutset : String) : String :=
  ⟨s.data.dropWhile (fun c => cutset.data.contains c)⟩

/-- Go `strings.TrimRight(s, cutset)`: `s` without its trailing characters that
occur in `cutset`. -/
def TrimRight (s cutset : String) : String :=
  ⟨(s.data.reverse.dropWhile (fun c => cutset.data.contains c)).reverse⟩

/-- Go `filepath.Base(path)` with `/` as the separator: the last element of the
path, after removing trailing slashes; `.` for the empty path and `/` for a path
of slashes only. -/
def Base (path : String) : String :=
  if path.data = [] then "."
  else
    let stripped := (path.data.reverse.dropWhile (fun c => c == '/')).reverse
    let last := (stripped.reverse.takeWhile (fun c => c != '/')).reverse
    if last = [] then "/" else ⟨last⟩

/-- Go `m[k]` in its two-result form, on the association list of the map. -/
def mapGet {V : Type} (m : List (String × V)) (k : String) : Option V :=
  match m with
  | [] => none
  | (k', v) :: rest => if k' = k then some v else mapGet rest k

/-- Go `m[k] = v`: the entry of `k` is replaced when there is one, and added
otherwise. -/
def mapSet {V : Type} (m : List (String × V)) (k : String) (v : V) : List (String × V) :=
  match m with
  | [] => [(k, v)]
  | (k', v') :: rest => if k' = k then (k, v) :: rest else (k', v') :: mapSet rest k v

/-! ## Kubernetes objects -/

/-- The `metav1.OwnerReference` of a Kubernetes object. -/
structure OwnerReference where
  APIVersion : String
  Kind : String
  Name : String
  UID : String
  Controller : Option Bool
  BlockOwnerDeletion : Option Bool
deriving DecidableEq, Repr

/-- The `schema.GroupVersionKind` triple. -/
structure GroupVersionKind where
  Group : String
  Version : String
  Kind : String
deriving DecidableEq, Repr

/-- The `extensionsv1beta1.Ingress` object: the metadata the package reads, and
the rest of the object (`Spec`), which only templates look at. -/
structure Ingress where
  Namespace : String
  Name : String
  UID : String
  Annotations : List (String × String)
  Spec : String
deriving DecidableEq, Repr

/-- The `metav1.ObjectMeta` of a PrometheusRule. -/
structure ObjectMeta where
  Name : String
  Namespace : String
  OwnerReferences : List OwnerReference
deriving DecidableEq, Repr

/-- The `monitoringv1.PrometheusRule` object: its metadata and its rule groups
(`Spec`), which the package never inspects. -/
structure PrometheusRule where
  ObjectMeta : ObjectMeta
  Spec : String
deriving DecidableEq, Repr

/-- The `SetOwnerReferences` method: the owner references are replaced. -/
def PrometheusRule.SetOwnerReferences (r : PrometheusRule) (refs : List OwnerReference) :
    PrometheusRule :=
  { r with ObjectMeta := { r.ObjectMeta with OwnerReferences := refs } }

/-- The `extensionsv1beta1.SchemeGroupVersion` group: the package
`k8s.io/api/extensions/v1beta1` registers the group `extensions`. -/
def SchemeGroupVersionGroup : String := "extensions"

/-- The `extensionsv1beta1.SchemeGroupVersion` version. -/
def SchemeGroupVersionVersion : String := "v1beta1"

/-- The `GroupVersion().String()` of a `GroupVersionKind`: `group/version`, or
the version alone for the empty group. -/
def GroupVersionKind.apiVersion (gvk : GroupVersionKind) : String :=
  if gvk.Group.data = [] then gvk.Version else gvk.Group ++ "/" ++ gvk.Version

/-- The `metav1.NewControllerRef(owner, gvk)` constructor: a reference to the
owner, marked as controller and as blocking the deletion of the owner. -/
def NewControllerRef (owner : Ingress) (gvk : GroupVersionKind) : OwnerReference :=
  { APIVersion := gvk.apiVersion
    Kind := gvk.Kind
    Name := owner.Name
    UID := owner.UID
    Controller := some true
    BlockOwnerDeletion := some true }

/-! ## The package -/

/-- The reserved annotation prefix, `heimPrefix`. -/
def heimPrefix : String := "com.uswitch.heimdall"

/-- The struct passed to each promrule template. -/
structure templateParameter where
  Identifier : String
  Threshold : String
  Namespace : String
  Name : String
  Host : String
  Value : String
  Ingress : Ingress
deriving DecidableEq, Repr

/-- A compiled `*template.Template`: `Execute` maps the parameter object to the
rendered text, or to an error. -/
structure Template where
  Execute : templateParameter → Except String String

/-- The manager: a map of all the templates of the templates folder. -/
structure PrometheusRuleTemplateManager where
  templates : List (String × Template)

/-- The function `collectPrometheusRules`: the values of the map, as a slice. -/
def collectPrometheusRules (prometheusRules : List (String × PrometheusRule)) :
    List PrometheusRule :=
  prometheusRules.map Prod.snd

/-- The key under which `NewPrometheusRuleTemplateManager` stores the template
of the file `t` (line 69): `strings.TrimRight(filepath.Base(t), ".tmpl")`. -/
def templateKey (t : String) : String :=
  TrimRight (Base t) ".tmpl"

/-- The loop of `NewPrometheusRuleTemplateManager` over the matched files: each
file is compiled and stored; the first failure ends the load. -/
def loadTemplates (parseFiles : String → Except String Template) :
    List String → List (String × Template) → Except String (List (String × Template))
  | [], templates => .ok templates
  | t :: rest, templates =>
    match parseFiles t with
    | .error err => .error err
    | .ok tmpl => loadTemplates parseFiles rest (mapSet templates (templateKey t) tmpl)

/-- The function `NewPrometheusRuleTemplateManager`: `glob` is `filepath.Glob`
on the file system at hand and `parseFiles` is `template.ParseFiles`. -/
def NewPrometheusRuleTemplateManager (glob : String → Except String (List String))
    (parseFiles : String → Except String Template) (directory : String) :
    Except String PrometheusRuleTemplateManager :=
  match glob (directory ++ "/*.tmpl") with
  | .error err => .error err
  | .ok templateFiles =>
    match loadTemplates parseFiles templateFiles [] with
    | .error err => .error err
    | .ok templates =>
      if templates.length = 0 then .error "no templates defined"
      else .ok { templates := templates }

/-- A call made by `CreateFromIngress` that the specification speaks about. -/
inductive Event where
  | lookup (templateName : String)
  | execute (templateName : String) (params : templateParameter)
  | warn (msg : String)
deriving DecidableEq, Repr

/-- The variables of `CreateFromIngress` that change in its loop: the shared
parameter object, the map of rules, and the calls made so far. -/
structure LoopState where
  params : templateParameter
  prometheusRules : List (String × PrometheusRule)
  trace : List Event

/-- The template name of the annotation key `k` (line 99):
`strings.TrimLeft(k, fmt.Sprintf("%s/", heimPrefix))`. -/
def templateNameOf (k : String) : String :=
  TrimLeft k (heimPrefix ++ "/")

/-- The group, version and kind given to `NewControllerRef` (lines 121-125). -/
def ingressGVK : GroupVersionKind :=
  { Group := SchemeGroupVersionGroup, Version := SchemeGroupVersionVersion, Kind := "Ingress" }

/-- One iteration of the loop of `CreateFromIngress` (lines 94-129), for the
annotation `kv = (k, v)`. -/
def loopBody (a : PrometheusRuleTemplateManager)
    (decode : String → Except String PrometheusRule) (ingress : Ingress)
    (ingressIdentifier : String) (s : LoopState) (kv : String × String) : LoopState :=
  if !HasPrefix kv.1 heimPrefix then s
  else
    let templateName := templateNameOf kv.1
    match mapGet a.templates templateName with
    | none =>
      { s with trace := s.trace ++ [Event.lookup templateName,
          Event.warn ("[ingress][" ++ ingressIdentifier ++ "] no template for \"" ++
            templateName ++ "\"")] }
    | some template =>
      let params := { s.params with Threshold := kv.2 }
      match template.Execute params with
      | .error err =>
        { s with
          params := params
          trace := s.trace ++ [Event.lookup templateName, Event.execute templateName params,
            Event.warn ("[ingress][" ++ ingressIdentifier ++
              "] error executing template : " ++ err)] }
      | .ok result =>
        match decode result with
        | .error err =>
          { s with
            params := params
            trace := s.trace ++ [Event.lookup templateName, Event.execute templateName params,
              Event.warn ("[ingress][" ++ ingressIdentifier ++
                "] error parsing YAML: " ++ err)] }
        | .ok decoded =>
          let promrule := decoded.SetOwnerReferences [NewControllerRef ingress ingressGVK]
          { params := params
            prometheusRules := mapSet s.prometheusRules promrule.ObjectMeta.Name promrule
            trace := s.trace ++ [Event.lookup templateName, Event.execute templateName params] }

/-- What `CreateFromIngress` returns, and the calls it made. -/
structure CreateResult where
  rules : List PrometheusRule
  err : Option String
  trace : List Event
deriving DecidableEq, Repr

/-- The parameter object that `CreateFromIngress` builds (lines 82-89); the
fields it does not set have the zero value. -/
def initialParams (ingress : Ingress) : templateParameter :=
  { Ingress := ingress
    Identifier := ingress.Namespace ++ "." ++ ingress.Name
    Namespace := ingress.Namespace
    Name := ingress.Name
    Threshold := ""
    Host := ""
    Value := "" }

/-- The body of `CreateFromIngress` with the loop ranging over `annotations`. -/
def createFromAnnotations (a : PrometheusRuleTemplateManager)
    (decode : String → Except String PrometheusRule) (ingress : Ingress)
    (annotations : List (String × String)) : CreateResult :=
  let ingressIdentifier := ingress.Namespace ++ "." ++ ingress.Name
  let s := annotations.foldl (loopBody a decode ingress ingressIdentifier)
    { params := initialParams ingress, prometheusRules := [], trace := [] }
  { rules := collectPrometheusRules s.prometheusRules, err := none, trace := s.trace }

/-- The method `CreateFromIngress`: all the promRules of an ingress. The loop
ranges over the annotations of the ingress. -/
def CreateFromIngress (a : PrometheusRuleTemplateManager)
    (decode : String → Except String PrometheusRule) (ingress : Ingress) : CreateResult :=
  createFromAnnotations a decode ingress ingress.Annotations

/-! ## The loop, annotation by annotation

The definitions below restate what one iteration contributes, as functions of
the annotation alone; `loopBody_paramsFor` and `foldl_loopBody` show that the
loop of the source computes exactly this. -/

/-- The parameter object seen by the template executed for an annotation of
value `v`: the object built before the loop, with `v` as its threshold. -/
def paramsFor (ingress : Ingress) (v : String) : templateParameter :=
  { initialParams ingress with Threshold := v }

/-- The rule of the annotation `kv` when its key is recognised and the lookup,
the execution and the decoding all succeed; `none` otherwise. -/
def renderedRule (a : PrometheusRuleTemplateManager)
    (decode : String → Except String PrometheusRule) (ingress : Ingress)
    (kv : String × String) : Option PrometheusRule :=
  if HasPrefix kv.1 heimPrefix then
    match mapGet a.templates (templateNameOf kv.1) with
    | none => none
    | some template =>
      match template.Execute (paramsFor ingress kv.2) with
      | .error _ => none
      | .ok result =>
        match decode result with
        | .error _ => none
        | .ok decoded => some (decoded.SetOwnerReferences [NewControllerRef ingress ingressGVK])
  else none

/-- The calls made by the iteration for the annotation `kv`. -/
def annotationEvents (a : PrometheusRuleTemplateManager)
    (decode : String → Except String PrometheusRule) (ingress : Ingress)
    (kv : String × String) : List Event :=
  if HasPrefix kv.1 heimPrefix then
    match mapGet a.templates (templateNameOf kv.1) with
    | none =>
      [Event.lookup (templateNameOf kv.1),
        Event.warn ("[ingress][" ++ (ingress.Namespace ++ "." ++ ingress.Name) ++
          "] no template for \"" ++ templateNameOf kv.1 ++ "\"")]
    | some template =>
      match template.Execute (paramsFor ingress kv.2) with
      | .error err =>
        [Event.lookup (templateNameOf kv.1),
          Event.execute (templateNameOf kv.1) (paramsFor ingress kv.2),
          Event.warn ("[ingress][" ++ (ingress.Namespace ++ "." ++ ingress.Name) ++
            "] error executing template : " ++ err)]
      | .ok result =>
        match decode result with
        | .error err =>
          [Event.lookup (templateNameOf kv.1),
            Event.execute (templateNameOf kv.1) (paramsFor ingress kv.2),
            Event.warn ("[ingress][" ++ (ingress.Namespace ++ "." ++ ingress.Name) ++
              "] error parsing YAML: " ++ err)]
        | .ok _ =>
          [Event.lookup (templateNameOf kv.1),
            Event.execute (templateNameOf kv.1) (paramsFor ingress kv.2)]
  else []

/-- The threshold left in the shared parameter object after the iteration for
`kv`, when it was `t` before. -/
def thresholdAfter (a : PrometheusRuleTemplateManager) (t : String) (kv : String × String) :
    String :=
  if HasPrefix kv.1 heimPrefix then
    match mapGet a.templates (templateNameOf kv.1) with
    | none => t
    | some _ => kv.2
  else t

/-- The map of rules after storing the rules `rs`, in this order, each under its
declared name. -/
def insertRules (m : List (String × PrometheusRule)) (rs : List PrometheusRule) :
    List (String × PrometheusRule) :=
  rs.foldl (fun acc r => mapSet acc r.ObjectMeta.Name r) m

/-- The warnings of a trace. -/
def warnings (trace : List Event) : List String :=
  trace.filterMap fun e =>
    match e with
    | Event.warn msg => some msg
    | _ => none

/-- The template executions of a trace: the name looked up, and the parameter
object given to the template. -/
def executions (trace : List Event) : List (String × templateParameter) :=
  trace.filterMap fun e =>
    match e with
    | Event.execute n p => some (n, p)
    | _ => none

/-- The names looked up in the library, of a trace. -/
def lookups (trace : List Event) : List String :=
  trace.filterMap fun e =>
    match e with
    | Event.lookup n => some n
    | _ => none

/-- The condition under which the specification has the load fail: the scan
fails, or no template file is found, or some matched file fails to compile. -/
def loadFails (glob : String → Except String (List String))
    (parseFiles : String → Except String Template) (directory : String) : Prop :=
  match glob (directory ++ "/*.tmpl") with
  | .error _ => True
  | .ok templateFiles =>
    templateFiles = [] ∨ ∃ t ∈ templateFiles, ∃ err, parseFiles t = .error err

/-! ## Concrete objects for the examples -/

/-- A decoder for the examples: it reads the text `namespace name body`, fails
on a text with no name, and returns a document that declares an owner reference
of its own. -/
def exampleDecode (text : String) : Except String PrometheusRule :=
  let ns := text.data.takeWhile (fun c => c != ' ')
  let rest := (text.data.dropWhile (fun c => c != ' ')).drop 1
  let name := rest.takeWhile (fun c => c != ' ')
  let body := (rest.dropWhile (fun c => c != ' ')).drop 1
  if name = [] then .error "no name"
  else .ok
    { ObjectMeta :=
        { Name := ⟨name⟩
          Namespace := ⟨ns⟩
          OwnerReferences := [⟨"v1", "Pod", "other", "uid-0", none, none⟩] }
      Spec := ⟨body⟩ }

/-- A template for the examples: a document named after the ingress, with the
threshold as its body. -/
def latencyTemplate : Template :=
  { Execute := fun p => .ok (p.Namespace ++ " " ++ p.Name ++ "-latency-rule " ++ p.Threshold) }

/-- A second template for the examples, with another declared name. -/
def rateTemplate : Template :=
  { Execute := fun p => .ok (p.Namespace ++ " " ++ p.Name ++ "-rate-rule " ++ p.Threshold) }

/-- A template for the examples whose execution fails. -/
def failingTemplate : Template :=
  { Execute := fun _ => .error "missing field" }

/-- A template for the examples whose text the decoder rejects. -/
def garbageTemplate : Template :=
  { Execute := fun _ => .ok "garbage" }

/-- The ingress `ns/foo` with the given annotations. -/
def fooIngress (annotations : List (String × String)) : Ingress :=
  { Namespace := "ns", Name := "foo", UID := "uid-1", Annotations := annotations, Spec := "" }

/-- The rule that `latencyTemplate` yields for `ns/foo` and the threshold `v`,
with the owner reference that `CreateFromIngress` attaches. -/
def fooRule (v : String) : PrometheusRule :=
  { ObjectMeta :=
      { Name := "foo-latency-rule"
        Namespace := "ns"
        OwnerReferences := [⟨"extensions/v1beta1", "Ingress", "foo", "uid-1", some true, some true⟩] }
    Spec := v }

/-- A directory scan for the examples: it finds the given files. -/
def exampleGlob (files : List String) (_pattern : String) : Except String (List String) :=
  .ok files

/-- A template compiler for the examples: the file `templates/bad.tmpl` does not
compile, every other file does. -/
def exampleParseFiles (t : String) : Except String Template :=
  if t = "templates/bad.tmpl" then .error "template: bad.tmpl:1: unexpected EOF"
  else .ok latencyTemplate

/-! ## Lemmas on maps -/

theorem mapGet_mapSet {V : Type} (m : List (String × V)) (k k' : String) (v : V) :
    mapGet (mapSet m k v) k' = if k = k' then some v else mapGet m k' := by
  induction m with
  | nil => simp [mapSet, mapGet]
  | cons hd tl ih =>
    obtain ⟨k0, v0⟩ := hd
    by_cases h : k0 = k
    · subst h
      by_cases h' : k0 = k' <;> simp [mapSet, mapGet, h']
    · by_cases h' : k0 = k'
      · subst h'
        have : ¬ k = k0 := fun e => h e.symm
        simp [mapSet, mapGet, h, this]
      · simp [mapSet, mapGet, h, h', ih]

theorem mem_keys_mapSet {V : Type} (m : List (String × V)) (k k' : String) (v : V) :
    k' ∈ (mapSet m k v).map Prod.fst ↔ k' = k ∨ k' ∈ m.map Prod.fst := by
  induction m with
  | nil => simp [mapSet]
  | cons hd tl ih =>
    obtain ⟨k0, v0⟩ := hd
    by_cases h : k0 = k
    · subst h
      simp [mapSet]
    · simp only [mapSet, h, if_false, List.map_cons, List.mem_cons, ih]
      tauto

theorem nodup_keys_mapSet {V : Type} (m : List (String × V)) (k : String) (v : V)
    (h : (m.map Prod.fst).Nodup) : ((mapSet m k v).map Prod.fst).Nodup := by
  induction m with
  | nil => simp [mapSet]
  | cons hd tl ih =>
    obtain ⟨k0, v0⟩ := hd
    simp only [List.map_cons, List.nodup_cons] at h
    by_cases hk : k0 = k
    · subst hk
      simpa [mapSet] using h
    · simp only [mapSet, hk, if_false, List.map_cons, List.nodup_cons]
      refine ⟨?_, ih h.2⟩
      rw [mem_keys_mapSet]
      rintro (e | e)
      · exact hk e
      · exact h.1 e

theorem mem_mapSet {V : Type} (m : List (String × V)) (k : String) (v : V) (e : String × V)
    (h : e ∈ mapSet m k v) : e = (k, v) ∨ e ∈ m := by
  induction m with
  | nil => simpa [mapSet] using h
  | cons hd tl ih =>
    obtain ⟨k0, v0⟩ := hd
    by_cases hk : k0 = k
    · subst hk
      simp only [mapSet, if_true, List.mem_cons] at h
      rcases h with h | h
      · exact Or.inl h
      · exact Or.inr (List.mem_cons_of_mem _ h)
    · simp only [mapSet, hk, if_false, List.mem_cons] at h
      rcases h with h | h
      · exact Or.inr (h ▸ List.mem_cons_self _ _)
      · rcases ih h with h | h
        · exact Or.inl h
        · exact Or.inr (List.mem_cons_of_mem _ h)

theorem mapGet_eq_some_of_mem {V : Type} (m : List (String × V)) (k : String) (v : V)
    (hn : (m.map Prod.fst).Nodup) (h : (k, v) ∈ m) : mapGet m k = some v := by
  induction m with
  | nil => simp at h
  | cons hd tl ih =>
    obtain ⟨k0, v0⟩ := hd
    simp only [List.map_cons, List.nodup_cons] at hn
    simp only [List.mem_cons, Prod.mk.injEq] at h
    rcases h with ⟨h1, h2⟩ | h
    · subst h1; subst h2
      simp [mapGet]
    · have hne : k0 ≠ k := by
        rintro rfl
        exact hn.1 (List.mem_map_of_mem Prod.fst h)
      simp [mapGet, hne, ih hn.2 h]

theorem mem_of_mapGet_eq_some {V : Type} (m : List (String × V)) (k : String) (v : V)
    (h : mapGet m k = some v) : (k, v) ∈ m := by
  induction m with
  | nil => simp [mapGet] at h
  | cons hd tl ih =>
    obtain ⟨k0, v0⟩ := hd
    by_cases hk : k0 = k
    · subst hk
      simp only [mapGet, if_true, Option.some.injEq] at h
      subst h
      exact List.mem_cons_self _ _
    · simp only [mapGet, hk, if_false] at h
      exact List.mem_cons_of_mem _ (ih h)

/-! ## Lemmas on the loop -/

theorem loopBody_paramsFor (a : PrometheusRuleTemplateManager)
    (decode : String → Except String PrometheusRule) (ingress : Ingress) (t : String)
    (m : List (String × PrometheusRule)) (tr : List Event) (kv : String × String) :
    loopBody a decode ingress (ingress.Namespace ++ "." ++ ingress.Name)
        { params := paramsFor ingress t, prometheusRules := m, trace := tr } kv =
      { params := paramsFor ingress (thresholdAfter a t kv)
        prometheusRules := insertRules m (renderedRule a decode ingress kv).toList
        trace := tr ++ annotationEvents a decode ingress kv } := by
  unfold loopBody renderedRule annotationEvents thresholdAfter
  by_cases hp : HasPrefix kv.1 heimPrefix = true
  · simp only [hp, Bool.not_true, if_true, Bool.false_eq_true, if_false]
    cases hl : mapGet a.templates (templateNameOf kv.1) with
    | none => simp [insertRules]
    | some template =>
      have hpar : ({ paramsFor ingress t with Threshold := kv.2 } : templateParameter) =
          paramsFor ingress kv.2 := rfl
      simp only [hpar]
      cases he : template.Execute (paramsFor ingress kv.2) with
      | error err => simp [insertRules]
      | ok result =>
        cases hd : decode result with
        | error err => simp [insertRules, hd]
        | ok decoded => simp [insertRules, hd]
  · simp only [Bool.not_eq_true] at hp
    simp [hp, insertRules]

theorem foldl_loopBody (a : PrometheusRuleTemplateManager)
    (decode : String → Except String PrometheusRule) (ingress : Ingress)
    (l : List (String × String)) (t : String)
    (m : List (String × PrometheusRule)) (tr : List Event) :
    l.foldl (loopBody a decode ingress (ingress.Namespace ++ "." ++ ingress.Name))
        { params := paramsFor ingress t, prometheusRules := m, trace := tr } =
      { params := paramsFor ingress (l.foldl (thresholdAfter a) t)
        prometheusRules := insertRules m (l.filterMap (renderedRule a decode ingress))
        trace := tr ++ l.flatMap (annotationEvents a decode ingress) } := by
  induction l generalizing t m tr with
  | nil => simp [insertRules]
  | cons kv rest ih =>
    rw [List.foldl_cons, loopBody_paramsFor, ih]
    cases hr : renderedRule a decode ingress kv <;>
      simp [insertRules, List.filterMap_cons, hr, List.flatMap_cons, List.append_assoc]

theorem createFromAnnotations_eq (a : PrometheusRuleTemplateManager)
    (decode : String → Except String PrometheusRule) (ingress : Ingress)
    (l : List (String × String)) :
    createFromAnnotations a decode ingress l =
      { rules := collectPrometheusRules
          (insertRules [] (l.filterMap (renderedRule a decode ingress)))
        err := none
        trace := l.flatMap (annotationEvents a decode ingress) } := by
  have h := foldl_loopBody a decode ingress l "" [] []
  have hinit : initialParams ingress = paramsFor ingress "" := rfl
  simp only [createFromAnnotations, hinit, h, List.nil_append]

/-! ## Lemmas on the map of rules -/

theorem insertRules_append (m : List (String × PrometheusRule)) (rs rs' : List PrometheusRule) :
    insertRules m (rs ++ rs') = insertRules (insertRules m rs) rs' := by
  simp [insertRules, List.foldl_append]

theorem insertRules_cons (m : List (String × PrometheusRule)) (r : PrometheusRule)
    (rs : List PrometheusRule) :
    insertRules m (r :: rs) = insertRules (mapSet m r.ObjectMeta.Name r) rs := rfl

theorem nodup_keys_insertRules (rs : List PrometheusRule) (m : List (String × PrometheusRule))
    (h : (m.map Prod.fst).Nodup) : ((insertRules m rs).map Prod.fst).Nodup := by
  induction rs generalizing m with
  | nil => exact h
  | cons r rest ih => exact ih _ (nodup_keys_mapSet m _ r h)

theorem mem_keys_insertRules (rs : List PrometheusRule) (m : List (String × PrometheusRule))
    (k : String) :
    k ∈ (insertRules m rs).map Prod.fst ↔
      k ∈ m.map Prod.fst ∨ k ∈ rs.map (fun r => r.ObjectMeta.Name) := by
  induction rs generalizing m with
  | nil => simp [insertRules]
  | cons r rest ih =>
    rw [insertRules_cons, ih, mem_keys_mapSet]
    simp only [List.map_cons, List.mem_cons]
    tauto

theorem mem_insertRules (rs : List PrometheusRule) (m : List (String × PrometheusRule))
    (e : String × PrometheusRule) (h : e ∈ insertRules m rs) :
    e ∈ m ∨ ∃ r ∈ rs, e = (r.ObjectMeta.Name, r) := by
  induction rs generalizing m with
  | nil => exact Or.inl h
  | cons r rest ih =>
    rw [insertRules_cons] at h
    rcases ih _ h with h1 | ⟨r', hr', he⟩
    · rcases mem_mapSet m _ r e h1 with h2 | h2
      · exact Or.inr ⟨r, List.mem_cons_self _ _, h2⟩
      · exact Or.inl h2
    · exact Or.inr ⟨r', List.mem_cons_of_mem _ hr', he⟩

theorem mapGet_insertRules_of_not_mem (rs : List PrometheusRule)
    (m : List (String × PrometheusRule)) (k : String)
    (h : ∀ r ∈ rs, r.ObjectMeta.Name ≠ k) : mapGet (insertRules m rs) k = mapGet m k := by
  induction rs generalizing m with
  | nil => rfl
  | cons r rest ih =>
    rw [insertRules_cons, ih _ (fun r' hr' => h r' (List.mem_cons_of_mem _ hr')),
      mapGet_mapSet, if_neg (h r (List.mem_cons_self _ _))]

theorem mapGet_insertRules_last (pre post : List PrometheusRule) (r : PrometheusRule)
    (m : List (String × PrometheusRule))
    (h : ∀ r' ∈ post, r'.ObjectMeta.Name ≠ r.ObjectMeta.Name) :
    mapGet (insertRules m (pre ++ r :: post)) r.ObjectMeta.Name = some r := by
  rw [insertRules_append, insertRules_cons, mapGet_insertRules_of_not_mem post _ _ h,
    mapGet_mapSet, if_pos rfl]

theorem names_collect (m : List (String × PrometheusRule))
    (h : ∀ e ∈ m, e.1 = e.2.ObjectMeta.Name) :
    (collectPrometheusRules m).map (fun r => r.ObjectMeta.Name) = m.map Prod.fst := by
  induction m with
  | nil => rfl
  | cons hd tl ih =>
    have h1 := h hd (List.mem_cons_self _ _)
    have h2 := ih (fun e he => h e (List.mem_cons_of_mem _ he))
    simp only [collectPrometheusRules, List.map_cons, List.map_map] at h2 ⊢
    rw [h2, h1]

theorem keyed_insertRules (rs : List PrometheusRule) :
    ∀ e ∈ insertRules [] rs, e.1 = e.2.ObjectMeta.Name := by
  intro e he
  rcases mem_insertRules rs [] e he with h | ⟨r, _, h⟩
  · simp at h
  · rw [h]

theorem mem_collect_insertRules (rs : List PrometheusRule) (r : PrometheusRule) :
    r ∈ collectPrometheusRules (insertRules [] rs) ↔
      mapGet (insertRules [] rs) r.ObjectMeta.Name = some r := by
  constructor
  · intro h
    simp only [collectPrometheusRules, List.mem_map] at h
    obtain ⟨e, he, rfl⟩ := h
    have hk := keyed_insertRules rs e he
    apply mapGet_eq_some_of_mem _ _ _ (nodup_keys_insertRules rs [] (by simp))
    rw [← hk]
    exact he
  · intro h
    have := mem_of_mapGet_eq_some _ _ _ h
    simp only [collectPrometheusRules, List.mem_map]
    exact ⟨_, this, rfl⟩

theorem nodup_names_collect (rs : List PrometheusRule) :
    ((collectPrometheusRules (insertRules [] rs)).map (fun r => r.ObjectMeta.Name)).Nodup := by
  rw [names_collect _ (keyed_insertRules rs)]
  exact nodup_keys_insertRules rs [] (by simp)

theorem length_collect (rs : List PrometheusRule) :
    (collectPrometheusRules (insertRules [] rs)).length =
      (rs.map (fun r => r.ObjectMeta.Name)).dedup.length := by
  have hp : ((insertRules [] rs).map Prod.fst).Perm
      (rs.map (fun r => r.ObjectMeta.Name)).dedup := by
    rw [List.perm_ext_iff_of_nodup (nodup_keys_insertRules rs [] (by simp)) (List.nodup_dedup _)]
    intro k
    rw [mem_keys_insertRules, List.mem_dedup]
    simp
  have := hp.length_eq
  simpa [collectPrometheusRules] using this

theorem mem_collect_rendered (rs : List PrometheusRule) (r : PrometheusRule)
    (h : r ∈ collectPrometheusRules (insertRules [] rs)) : r ∈ rs := by
  simp only [collectPrometheusRules, List.mem_map] at h
  obtain ⟨e, he, rfl⟩ := h
  rcases mem_insertRules rs [] e he with h | ⟨r, hr, h⟩
  · simp at h
  · rw [h]
    exact hr

theorem mapGet_insertRules_some (rs : List PrometheusRule)
    (m : List (String × PrometheusRule)) (n : String) (r : PrometheusRule)
    (h : mapGet (insertRules m rs) n = some r) :
    (mapGet m n = some r ∧ ∀ r' ∈ rs, r'.ObjectMeta.Name ≠ n) ∨
      ∃ pre post, rs = pre ++ r :: post ∧ r.ObjectMeta.Name = n ∧
        ∀ r' ∈ post, r'.ObjectMeta.Name ≠ n := by
  induction rs generalizing m with
  | nil => exact Or.inl ⟨h, by simp⟩
  | cons x rest ih =>
    rw [insertRules_cons] at h
    rcases ih _ h with ⟨hget, hrest⟩ | ⟨pre, post, hsplit, hname, hpost⟩
    · rw [mapGet_mapSet] at hget
      by_cases hx : x.ObjectMeta.Name = n
      · rw [if_pos hx] at hget
        have hxr : x = r := Option.some.inj hget
        subst hxr
        exact Or.inr ⟨[], rest, rfl, hx, hrest⟩
      · rw [if_neg hx] at hget
        refine Or.inl ⟨hget, ?_⟩
        intro r' hr'
        rcases List.mem_cons.1 hr' with rfl | hr'
        · exact hx
        · exact hrest r' hr'
    · exact Or.inr ⟨x :: pre, post, by rw [hsplit]; rfl, hname, hpost⟩

theorem mem_rules_iff_last (a : PrometheusRuleTemplateManager)
    (decode : String → Except String PrometheusRule) (ingress : Ingress)
    (l : List (String × String)) (r : PrometheusRule) :
    r ∈ (createFromAnnotations a decode ingress l).rules ↔
      ∃ pre kv post, l = pre ++ kv :: post ∧
        renderedRule a decode ingress kv = some r ∧
        ∀ kv' ∈ post, ∀ r', renderedRule a decode ingress kv' = some r' →
          r'.ObjectMeta.Name ≠ r.ObjectMeta.Name := by
  simp only [createFromAnnotations_eq]
  constructor
  · intro h
    rcases mapGet_insertRules_some _ _ _ _ ((mem_collect_insertRules _ r).1 h) with
      ⟨hget, _⟩ | ⟨rpre, rpost, hsplit, _, hpost⟩
    · simp [mapGet] at hget
    · obtain ⟨l₁, l₂, hl, _, h₂⟩ := List.filterMap_eq_append_iff.1 hsplit
      obtain ⟨l₃, kv, l₄, hl₂, hnone, hkv, hpost'⟩ := List.filterMap_eq_cons_iff.1 h₂
      refine ⟨l₁ ++ l₃, kv, l₄, by rw [hl, hl₂, List.append_assoc], hkv, ?_⟩
      intro kv' hkv' r' hr'
      apply hpost
      rw [← hpost']
      exact List.mem_filterMap.2 ⟨kv', hkv', hr'⟩
  · rintro ⟨pre, kv, post, hl, hkv, hlast⟩
    rw [mem_collect_insertRules]
    simp only [hl, List.filterMap_append, List.filterMap_cons, hkv]
    apply mapGet_insertRules_last
    intro r' hr'
    obtain ⟨kv', hkv', h'⟩ := List.mem_filterMap.1 hr'
    exact hlast kv' hkv' r' h'

/-! ## Lemmas on the load -/

theorem loadTemplates_error (parseFiles : String → Except String Template)
    (files : List String) (m : List (String × Template)) (err : String)
    (h : loadTemplates parseFiles files m = .error err) :
    ∃ t ∈ files, parseFiles t = .error err := by
  induction files generalizing m with
  | nil => simp [loadTemplates] at h
  | cons t rest ih =>
    unfold loadTemplates at h
    cases hp : parseFiles t with
    | error e =>
      rw [hp] at h
      simp only [Except.error.injEq] at h
      exact ⟨t, List.mem_cons_self _ _, by rw [hp, h]⟩
    | ok tmpl =>
      rw [hp] at h
      obtain ⟨t', ht', h'⟩ := ih _ h
      exact ⟨t', List.mem_cons_of_mem _ ht', h'⟩

theorem mapSet_ne_nil {V : Type} (m : List (String × V)) (k : String) (v : V) :
    mapSet m k v ≠ [] := by
  cases m with
  | nil => simp [mapSet]
  | cons hd tl =>
    obtain ⟨k0, v0⟩ := hd
    by_cases h : k0 = k <;> simp [mapSet, h]

theorem loadTemplates_ok (parseFiles : String → Except String Template)
    (files : List String) (m templates : List (String × Template))
    (h : loadTemplates parseFiles files m = .ok templates) :
    (∀ t ∈ files, ∃ tmpl, parseFiles t = .ok tmpl) ∧ (templates = [] → files = [] ∧ m = []) := by
  induction files generalizing m with
  | nil =>
    simp only [loadTemplates, Except.ok.injEq] at h
    subst h
    simp
  | cons t rest ih =>
    unfold loadTemplates at h
    cases hp : parseFiles t with
    | error e =>
      rw [hp] at h
      simp at h
    | ok tmpl =>
      rw [hp] at h
      obtain ⟨h1, h2⟩ := ih _ h
      refine ⟨?_, ?_⟩
      · intro t' ht'
        rcases List.mem_cons.1 ht' with rfl | ht'
        · exact ⟨tmpl, hp⟩
        · exact h1 t' ht'
      · intro he
        exact absurd (h2 he).2 (mapSet_ne_nil _ _ _)

/-! ## Template names and keys (C1, C8) -/

/-- C1, at the scenario of the specification: for the ingress `ns/foo` with the
single annotation `com.uswitch.heimdall/latency = "500"` and a library whose only
entry is `latency`, the name looked up is `ncy`, not `latency` (the character-set
trim also removes `l`, `a`, `t`, `e`); the lookup misses, one warning is logged
and no rule is returned. -/
theorem createFromIngress_latency_looks_up_ncy :
    templateNameOf "com.uswitch.heimdall/latency" = "ncy" ∧
    CreateFromIngress { templates := [("latency", latencyTemplate)] } exampleDecode
        (fooIngress [("com.uswitch.heimdall/latency", "500")]) =
      { rules := []
        err := none
        trace := [Event.lookup "ncy",
          Event.warn "[ingress][ns.foo] no template for \"ncy\""] } := by
  decide

/-- C8, at concrete files: the template of `templates/alert.tmpl` is stored
under `aler`, not `alert`, and the two files `templates/a.tmpl` and
`templates/at.tmpl`, of different base names, share the key `a`: the library
loaded from them has that one entry. -/
theorem templateKey_alert_is_aler :
    templateKey "templates/alert.tmpl" = "aler" ∧
    templateKey "templates/a.tmpl" = "a" ∧
    templateKey "templates/at.tmpl" = "a" ∧
    ∃ m, NewPrometheusRuleTemplateManager
        (exampleGlob ["templates/a.tmpl", "templates/at.tmpl"]) exampleParseFiles "templates" =
          .ok m ∧ m.templates.map Prod.fst = ["a"] := by
  refine ⟨by decide, by decide, by decide, ?_⟩
  exact ⟨_, rfl, by decide⟩

/-! ## Annotations without the reserved prefix (C2, C3) -/

/-- C2 as stated fails: the key `com.uswitch.heimdallx` does not begin with the
reserved prefix followed by `/`, yet `CreateFromIngress` looks up a name for it
(`x`) and, with a template of that name in the library, returns a rule for it. -/
theorem createFromIngress_key_without_separator :
    HasPrefix "com.uswitch.heimdallx" (heimPrefix ++ "/") = false ∧
    lookups (CreateFromIngress { templates := [("x", latencyTemplate)] } exampleDecode
      (fooIngress [("com.uswitch.heimdallx", "1")])).trace = ["x"] ∧
    (CreateFromIngress { templates := [("x", latencyTemplate)] } exampleDecode
      (fooIngress [("com.uswitch.heimdallx", "1")])).rules = [fooRule "1"] := by
  decide

/-- C2, amended: an annotation whose key does not begin with the reserved prefix
`com.uswitch.heimdall` is skipped. Its iteration changes nothing (no lookup, no
execution, no warning, no rule), and `CreateFromIngress` returns what it returns
when the loop does not visit that annotation at all. -/
theorem createFromIngress_skips_unprefixed (a : PrometheusRuleTemplateManager)
    (decode : String → Except String PrometheusRule) (ingress : Ingress)
    (pre post : List (String × String)) (kv : String × String)
    (hann : ingress.Annotations = pre ++ kv :: post)
    (hkey : HasPrefix kv.1 heimPrefix = false) :
    (∀ ingressIdentifier s, loopBody a decode ingress ingressIdentifier s kv = s) ∧
    annotationEvents a decode ingress kv = [] ∧
    CreateFromIngress a decode ingress = createFromAnnotations a decode ingress (pre ++ post) := by
  refine ⟨?_, ?_, ?_⟩
  · intro ingressIdentifier s
    simp [loopBody, hkey]
  · simp [annotationEvents, hkey]
  · have hr : renderedRule a decode ingress kv = none := by simp [renderedRule, hkey]
    have he : annotationEvents a decode ingress kv = [] := by simp [annotationEvents, hkey]
    simp [CreateFromIngress, hann, createFromAnnotations_eq, List.filterMap_append,
      List.filterMap_cons, hr, he, List.flatMap_append, List.flatMap_cons]

/-- The amended C2 at a concrete input: the annotation `kubernetes.io/ingress.class`
between two recognised annotations is skipped. -/
theorem createFromIngress_skips_unprefixed_witness :
    HasPrefix "kubernetes.io/ingress.class" heimPrefix = false ∧
    CreateFromIngress { templates := [("X", latencyTemplate)] } exampleDecode
        (fooIngress [("com.uswitch.heimdall/X", "1"), ("kubernetes.io/ingress.class", "nginx"),
          ("com.uswitch.heimdall/Y", "2")]) =
      createFromAnnotations { templates := [("X", latencyTemplate)] } exampleDecode
        (fooIngress [("com.uswitch.heimdall/X", "1"), ("kubernetes.io/ingress.class", "nginx"),
          ("com.uswitch.heimdall/Y", "2")])
        ([("com.uswitch.heimdall/X", "1")] ++ [("com.uswitch.heimdall/Y", "2")]) :=
  ⟨by decide,
    (createFromIngress_skips_unprefixed { templates := [("X", latencyTemplate)] } exampleDecode
      (fooIngress [("com.uswitch.heimdall/X", "1"), ("kubernetes.io/ingress.class", "nginx"),
        ("com.uswitch.heimdall/Y", "2")])
      [("com.uswitch.heimdall/X", "1")] [("com.uswitch.heimdall/Y", "2")]
      ("kubernetes.io/ingress.class", "nginx") rfl (by decide)).2.2⟩

/-- C3: when no annotation key of the ingress starts with the reserved prefix
(in particular when the ingress has no annotation), `CreateFromIngress` returns
the empty list of rules and a nil error, and makes no call at all: no lookup, no
template execution, no warning. -/
theorem createFromIngress_no_recognized (a : PrometheusRuleTemplateManager)
    (decode : String → Except String PrometheusRule) (ingress : Ingress)
    (h : ∀ kv ∈ ingress.Annotations, HasPrefix kv.1 heimPrefix = false) :
    CreateFromIngress a decode ingress = { rules := [], err := none, trace := [] } := by
  have hr : ingress.Annotations.filterMap (renderedRule a decode ingress) = [] := by
    rw [List.filterMap_eq_nil_iff]
    intro kv hkv
    simp [renderedRule, h kv hkv]
  have he : ingress.Annotations.flatMap (annotationEvents a decode ingress) = [] := by
    rw [List.flatMap_eq_nil_iff]
    intro kv hkv
    simp [annotationEvents, h kv hkv]
  simp [CreateFromIngress, createFromAnnotations_eq, hr, he, insertRules,
    collectPrometheusRules]

/-- C3 at concrete inputs: an ingress with two foreign annotations, and through
the same theorem an ingress with none. -/
theorem createFromIngress_no_recognized_witness :
    CreateFromIngress { templates := [("latency", latencyTemplate)] } exampleDecode
        (fooIngress [("kubernetes.io/ingress.class", "nginx"), ("latency", "500")]) =
      { rules := [], err := none, trace := [] } ∧
    CreateFromIngress { templates := [("latency", latencyTemplate)] } exampleDecode
        (fooIngress []) = { rules := [], err := none, trace := [] } :=
  ⟨createFromIngress_no_recognized _ _ _ (by decide),
    createFromIngress_no_recognized _ _ _ (by simp [fooIngress])⟩

/-! ## A recognised annotation without a template (C4) -/

/-- C4, at a concrete input: the key `com.uswitch.heimdall/latency` is recognised
and its template name, `latency`, is absent from the library, whose only entry
is `ncy`. The claim asks for one warning and no rule. The code looks up `ncy`
(the character-set trim of line 99 also removes `l`, `a`, `t`, `e`), finds that
template, executes it and returns its rule, and logs no warning. -/
theorem createFromIngress_absent_name_renders :
    HasPrefix "com.uswitch.heimdall/latency" (heimPrefix ++ "/") = true ∧
    (mapGet [("ncy", latencyTemplate)] "latency").isNone = true ∧
    templateNameOf "com.uswitch.heimdall/latency" = "ncy" ∧
    lookups (CreateFromIngress { templates := [("ncy", latencyTemplate)] } exampleDecode
      (fooIngress [("com.uswitch.heimdall/latency", "500")])).trace = ["ncy"] ∧
    (CreateFromIngress { templates := [("ncy", latencyTemplate)] } exampleDecode
      (fooIngress [("com.uswitch.heimdall/latency", "500")])).rules = [fooRule "500"] ∧
    warnings (CreateFromIngress { templates := [("ncy", latencyTemplate)] } exampleDecode
      (fooIngress [("com.uswitch.heimdall/latency", "500")])).trace = [] := by
  decide

/-- A missed lookup: for an annotation `(k, v)` that passes the guard and for
which the name that line 99 computes, `templateNameOf k`, has no entry in the
library, the iteration makes one lookup and logs exactly one warning, and
`CreateFromIngress` returns the rules that it returns when the loop skips that
annotation, with a nil error; the calls made for the other annotations are
unchanged. -/
theorem createFromIngress_missing_template (a : PrometheusRuleTemplateManager)
    (decode : String → Except String PrometheusRule) (ingress : Ingress)
    (pre post : List (String × String)) (k v : String)
    (hann : ingress.Annotations = pre ++ (k, v) :: post)
    (hkey : HasPrefix k heimPrefix = true)
    (hmiss : mapGet a.templates (templateNameOf k) = none) :
    (CreateFromIngress a decode ingress).rules =
      (createFromAnnotations a decode ingress (pre ++ post)).rules ∧
    (CreateFromIngress a decode ingress).err = none ∧
    (CreateFromIngress a decode ingress).trace =
      (createFromAnnotations a decode ingress pre).trace ++
        [Event.lookup (templateNameOf k),
          Event.warn ("[ingress][" ++ (ingress.Namespace ++ "." ++ ingress.Name) ++
            "] no template for \"" ++ templateNameOf k ++ "\"")] ++
        (createFromAnnotations a decode ingress post).trace ∧
    (warnings (CreateFromIngress a decode ingress).trace).length =
      (warnings (createFromAnnotations a decode ingress (pre ++ post)).trace).length + 1 := by
  have hr : renderedRule a decode ingress (k, v) = none := by
    simp [renderedRule, hkey, hmiss]
  have he : annotationEvents a decode ingress (k, v) =
      [Event.lookup (templateNameOf k),
        Event.warn ("[ingress][" ++ (ingress.Namespace ++ "." ++ ingress.Name) ++
          "] no template for \"" ++ templateNameOf k ++ "\"")] := by
    simp [annotationEvents, hkey, hmiss]
  refine ⟨?_, ?_, ?_, ?_⟩
  · simp [CreateFromIngress, hann, createFromAnnotations_eq, List.filterMap_append,
      List.filterMap_cons, hr]
  · simp [CreateFromIngress, createFromAnnotations_eq]
  · simp [CreateFromIngress, hann, createFromAnnotations_eq, List.flatMap_append,
      List.flatMap_cons, he]
  · simp [CreateFromIngress, hann, createFromAnnotations_eq, List.flatMap_append,
      List.flatMap_cons, he, warnings, List.filterMap_append]
    omega

/-- The missed lookup at a scenario of the specification: the annotations
`<prefix>/unknown` and `<prefix>/X` with only `X` in the library give exactly
the rule of `X` and one warning (the name looked up for the first is `nknown`). -/
theorem createFromIngress_missing_template_witness :
    (CreateFromIngress { templates := [("X", latencyTemplate)] } exampleDecode
      (fooIngress [("com.uswitch.heimdall/unknown", "1"), ("com.uswitch.heimdall/X", "2")])).rules =
      [fooRule "2"] ∧
    (warnings (CreateFromIngress { templates := [("X", latencyTemplate)] } exampleDecode
      (fooIngress [("com.uswitch.heimdall/unknown", "1"),
        ("com.uswitch.heimdall/X", "2")])).trace).length = 1 :=
  have h := createFromIngress_missing_template { templates := [("X", latencyTemplate)] }
    exampleDecode
    (fooIngress [("com.uswitch.heimdall/unknown", "1"), ("com.uswitch.heimdall/X", "2")])
    [] [("com.uswitch.heimdall/X", "2")] "com.uswitch.heimdall/unknown" "1" rfl
    (by decide) rfl
  ⟨h.1.trans (by decide), h.2.2.2.trans (by decide)⟩

/-! ## Failures of execution and decoding (C5) -/

/-- C5 as stated fails at a name collision: both annotations are recognised and
their lookup, execution and decoding succeed, yet only one rule is returned,
because both declare the same name. Whichever of the two the loop visits first
loses its rule. -/
theorem createFromIngress_collision_drops_rule :
    renderedRule { templates := [("X", latencyTemplate), ("Y", latencyTemplate)] }
        exampleDecode
        (fooIngress [("com.uswitch.heimdall/X", "1"), ("com.uswitch.heimdall/Y", "2")])
        ("com.uswitch.heimdall/X", "1") = some (fooRule "1") ∧
    renderedRule { templates := [("X", latencyTemplate), ("Y", latencyTemplate)] }
        exampleDecode
        (fooIngress [("com.uswitch.heimdall/X", "1"), ("com.uswitch.heimdall/Y", "2")])
        ("com.uswitch.heimdall/Y", "2") = some (fooRule "2") ∧
    (CreateFromIngress { templates := [("X", latencyTemplate), ("Y", latencyTemplate)] }
        exampleDecode
        (fooIngress [("com.uswitch.heimdall/X", "1"), ("com.uswitch.heimdall/Y", "2")])).rules =
      [fooRule "2"] ∧
    fooRule "1" ∉
      (CreateFromIngress { templates := [("X", latencyTemplate), ("Y", latencyTemplate)] }
        exampleDecode
        (fooIngress [("com.uswitch.heimdall/X", "1"), ("com.uswitch.heimdall/Y", "2")])).rules ∧
    (CreateFromIngress { templates := [("X", latencyTemplate), ("Y", latencyTemplate)] }
        exampleDecode
        (fooIngress [("com.uswitch.heimdall/Y", "2"), ("com.uswitch.heimdall/X", "1")])).rules =
      [fooRule "1"] ∧
    fooRule "2" ∉
      (CreateFromIngress { templates := [("X", latencyTemplate), ("Y", latencyTemplate)] }
        exampleDecode
        (fooIngress [("com.uswitch.heimdall/Y", "2"), ("com.uswitch.heimdall/X", "1")])).rules := by
  decide

/-- C5, amended: `CreateFromIngress` always returns a nil error. The rules
returned are exactly the rules of the recognised annotations whose lookup,
execution and decoding all succeed and whose declared name is not rendered again
by an annotation later in the iteration order. An annotation whose template is
found but whose execution or decoding fails is dropped with exactly one warning:
the rules returned are those returned when the loop skips it, and the calls made
for the other annotations are unchanged. -/
theorem createFromIngress_failures_absorbed (a : PrometheusRuleTemplateManager)
    (decode : String → Except String PrometheusRule) (ingress : Ingress) :
    (CreateFromIngress a decode ingress).err = none ∧
    (∀ r, r ∈ (CreateFromIngress a decode ingress).rules ↔
      ∃ pre kv post, ingress.Annotations = pre ++ kv :: post ∧
        renderedRule a decode ingress kv = some r ∧
        ∀ kv' ∈ post, ∀ r', renderedRule a decode ingress kv' = some r' →
          r'.ObjectMeta.Name ≠ r.ObjectMeta.Name) ∧
    (∀ (pre post : List (String × String)) (kv : String × String) (template : Template)
      (err : String),
      ingress.Annotations = pre ++ kv :: post →
      HasPrefix kv.1 heimPrefix = true →
      mapGet a.templates (templateNameOf kv.1) = some template →
      template.Execute (paramsFor ingress kv.2) = .error err →
      (CreateFromIngress a decode ingress).rules =
        (createFromAnnotations a decode ingress (pre ++ post)).rules ∧
      (CreateFromIngress a decode ingress).trace =
        (createFromAnnotations a decode ingress pre).trace ++
          [Event.lookup (templateNameOf kv.1),
            Event.execute (templateNameOf kv.1) (paramsFor ingress kv.2),
            Event.warn ("[ingress][" ++ (ingress.Namespace ++ "." ++ ingress.Name) ++
              "] error executing template : " ++ err)] ++
          (createFromAnnotations a decode ingress post).trace) ∧
    (∀ (pre post : List (String × String)) (kv : String × String) (template : Template)
      (text err : String),
      ingress.Annotations = pre ++ kv :: post →
      HasPrefix kv.1 heimPrefix = true →
      mapGet a.templates (templateNameOf kv.1) = some template →
      template.Execute (paramsFor ingress kv.2) = .ok text →
      decode text = .error err →
      (CreateFromIngress a decode ingress).rules =
        (createFromAnnotations a decode ingress (pre ++ post)).rules ∧
      (CreateFromIngress a decode ingress).trace =
        (createFromAnnotations a decode ingress pre).trace ++
          [Event.lookup (templateNameOf kv.1),
            Event.execute (templateNameOf kv.1) (paramsFor ingress kv.2),
            Event.warn ("[ingress][" ++ (ingress.Namespace ++ "." ++ ingress.Name) ++
              "] error parsing YAML: " ++ err)] ++
          (createFromAnnotations a decode ingress post).trace) := by
  refine ⟨?_, ?_, ?_, ?_⟩
  · simp [CreateFromIngress, createFromAnnotations_eq]
  · intro r
    exact mem_rules_iff_last a decode ingress ingress.Annotations r
  · intro pre post kv template err hann hkey hfound he
    have hr : renderedRule a decode ingress kv = none := by
      simp [renderedRule, hkey, hfound, he]
    have hev : annotationEvents a decode ingress kv =
        [Event.lookup (templateNameOf kv.1),
          Event.execute (templateNameOf kv.1) (paramsFor ingress kv.2),
          Event.warn ("[ingress][" ++ (ingress.Namespace ++ "." ++ ingress.Name) ++
            "] error executing template : " ++ err)] := by
      simp [annotationEvents, hkey, hfound, he]
    constructor
    · simp [CreateFromIngress, hann, createFromAnnotations_eq, List.filterMap_append,
        List.filterMap_cons, hr]
    · simp [CreateFromIngress, hann, createFromAnnotations_eq, List.flatMap_append,
        List.flatMap_cons, hev]
  · intro pre post kv template text err hann hkey hfound he hd
    have hr : renderedRule a decode ingress kv = none := by
      simp [renderedRule, hkey, hfound, he, hd]
    have hev : annotationEvents a decode ingress kv =
        [Event.lookup (templateNameOf kv.1),
          Event.execute (templateNameOf kv.1) (paramsFor ingress kv.2),
          Event.warn ("[ingress][" ++ (ingress.Namespace ++ "." ++ ingress.Name) ++
            "] error parsing YAML: " ++ err)] := by
      simp [annotationEvents, hkey, hfound, he, hd]
    constructor
    · simp [CreateFromIngress, hann, createFromAnnotations_eq, List.filterMap_append,
        List.filterMap_cons, hr]
    · simp [CreateFromIngress, hann, createFromAnnotations_eq, List.flatMap_append,
        List.flatMap_cons, hev]

/-- The amended C5 at a concrete input: between a template whose execution fails
and a template whose text does not decode, the annotation `X` still yields its
rule; the rules are those of the loop without the failing annotation, and two
warnings are logged. -/
theorem createFromIngress_failures_absorbed_witness :
    (CreateFromIngress
      { templates := [("X", latencyTemplate), ("bad", failingTemplate), ("junk", garbageTemplate)] }
      exampleDecode
      (fooIngress [("com.uswitch.heimdall/bad", "1"), ("com.uswitch.heimdall/X", "2"),
        ("com.uswitch.heimdall/junk", "3")])).err = none ∧
    fooRule "2" ∈ (CreateFromIngress
      { templates := [("X", latencyTemplate), ("bad", failingTemplate), ("junk", garbageTemplate)] }
      exampleDecode
      (fooIngress [("com.uswitch.heimdall/bad", "1"), ("com.uswitch.heimdall/X", "2"),
        ("com.uswitch.heimdall/junk", "3")])).rules ∧
    (CreateFromIngress
      { templates := [("X", latencyTemplate), ("bad", failingTemplate), ("junk", garbageTemplate)] }
      exampleDecode
      (fooIngress [("com.uswitch.heimdall/bad", "1"), ("com.uswitch.heimdall/X", "2"),
        ("com.uswitch.heimdall/junk", "3")])).rules = [fooRule "2"] ∧
    warnings (CreateFromIngress
      { templates := [("X", latencyTemplate), ("bad", failingTemplate), ("junk", garbageTemplate)] }
      exampleDecode
      (fooIngress [("com.uswitch.heimdall/bad", "1"), ("com.uswitch.heimdall/X", "2"),
        ("com.uswitch.heimdall/junk", "3")])).trace =
      ["[ingress][ns.foo] error executing template : missing field",
        "[ingress][ns.foo] error parsing YAML: no name"] :=
  have h := createFromIngress_failures_absorbed
    { templates := [("X", latencyTemplate), ("bad", failingTemplate), ("junk", garbageTemplate)] }
    exampleDecode
    (fooIngress [("com.uswitch.heimdall/bad", "1"), ("com.uswitch.heimdall/X", "2"),
      ("com.uswitch.heimdall/junk", "3")])
  ⟨h.1,
    (h.2.1 (fooRule "2")).2 ⟨[("com.uswitch.heimdall/bad", "1")],
      ("com.uswitch.heimdall/X", "2"), [("com.uswitch.heimdall/junk", "3")], rfl,
      by decide, by decide⟩,
    (h.2.2.1 [] [("com.uswitch.heimdall/X", "2"), ("com.uswitch.heimdall/junk", "3")]
      ("com.uswitch.heimdall/bad", "1") failingTemplate "missing field" rfl (by decide) rfl
      rfl).1.trans (by decide),
    by decide⟩

/-! ## Declared names (C6) -/

/-- C6: the rules returned have pairwise distinct declared names; their number
is the number of distinct declared names among the successfully rendered
annotations; and the rule rendered from the last annotation, in iteration
order, that declares a given name is returned and is the only rule returned
with that name. -/
theorem createFromIngress_last_write_wins (a : PrometheusRuleTemplateManager)
    (decode : String → Except String PrometheusRule) (ingress : Ingress) :
    ((CreateFromIngress a decode ingress).rules.map (fun r => r.ObjectMeta.Name)).Nodup ∧
    (CreateFromIngress a decode ingress).rules.length =
      ((ingress.Annotations.filterMap (renderedRule a decode ingress)).map
        (fun r => r.ObjectMeta.Name)).dedup.length ∧
    (∀ (pre post : List (String × String)) (kv : String × String) (r : PrometheusRule),
      ingress.Annotations = pre ++ kv :: post →
      renderedRule a decode ingress kv = some r →
      (∀ kv' ∈ post, ∀ r', renderedRule a decode ingress kv' = some r' →
        r'.ObjectMeta.Name ≠ r.ObjectMeta.Name) →
      r ∈ (CreateFromIngress a decode ingress).rules ∧
      ∀ r' ∈ (CreateFromIngress a decode ingress).rules,
        r'.ObjectMeta.Name = r.ObjectMeta.Name → r' = r) := by
  refine ⟨?_, ?_, ?_⟩
  · simp only [CreateFromIngress, createFromAnnotations_eq]
    exact nodup_names_collect _
  · simp only [CreateFromIngress, createFromAnnotations_eq]
    exact length_collect _
  · intro pre post kv r hann hr hlast
    have hget : mapGet (insertRules [] (ingress.Annotations.filterMap
        (renderedRule a decode ingress))) r.ObjectMeta.Name = some r := by
      simp only [hann, List.filterMap_append, List.filterMap_cons, hr]
      apply mapGet_insertRules_last
      intro r' hr'
      obtain ⟨kv', hkv', h'⟩ := List.mem_filterMap.1 hr'
      exact hlast kv' hkv' r' h'
    simp only [CreateFromIngress, createFromAnnotations_eq]
    refine ⟨(mem_collect_insertRules _ r).2 hget, ?_⟩
    intro r' hr' hname
    have h' := (mem_collect_insertRules _ r').1 hr'
    rw [hname, hget] at h'
    exact (Option.some.inj h').symm

/-- C6 at a concrete input: `X` and `Y` render the same declared name and `Z`
another one; two rules are returned, and the rule kept for the shared name is
that of `Y`, the later of the two. -/
theorem createFromIngress_last_write_wins_witness :
    (CreateFromIngress
      { templates := [("X", latencyTemplate), ("Y", latencyTemplate), ("Z", rateTemplate)] }
      exampleDecode
      (fooIngress [("com.uswitch.heimdall/X", "1"), ("com.uswitch.heimdall/Z", "3"),
        ("com.uswitch.heimdall/Y", "2")])).rules.length = 2 ∧
    fooRule "2" ∈ (CreateFromIngress
      { templates := [("X", latencyTemplate), ("Y", latencyTemplate), ("Z", rateTemplate)] }
      exampleDecode
      (fooIngress [("com.uswitch.heimdall/X", "1"), ("com.uswitch.heimdall/Z", "3"),
        ("com.uswitch.heimdall/Y", "2")])).rules ∧
    fooRule "1" ∉ (CreateFromIngress
      { templates := [("X", latencyTemplate), ("Y", latencyTemplate), ("Z", rateTemplate)] }
      exampleDecode
      (fooIngress [("com.uswitch.heimdall/X", "1"), ("com.uswitch.heimdall/Z", "3"),
        ("com.uswitch.heimdall/Y", "2")])).rules :=
  have h := createFromIngress_last_write_wins
    { templates := [("X", latencyTemplate), ("Y", latencyTemplate), ("Z", rateTemplate)] }
    exampleDecode
    (fooIngress [("com.uswitch.heimdall/X", "1"), ("com.uswitch.heimdall/Z", "3"),
      ("com.uswitch.heimdall/Y", "2")])
  have hY := h.2.2 [("com.uswitch.heimdall/X", "1"), ("com.uswitch.heimdall/Z", "3")] []
    ("com.uswitch.heimdall/Y", "2") (fooRule "2") rfl (by decide) (by simp)
  ⟨h.2.1.trans (by decide), hY.1,
    fun h1 => absurd (hY.2 (fooRule "1") h1 rfl) (by decide)⟩

/-! ## The owner reference (C7) -/

/-- C7: every rule returned by `CreateFromIngress` carries exactly one owner
reference, whatever the decoded document declared: API version
`extensions/v1beta1` (group `extensions`, version `v1beta1`), kind `Ingress`,
the name and the UID of the ingress, marked as the controller. -/
theorem createFromIngress_owner_reference (a : PrometheusRuleTemplateManager)
    (decode : String → Except String PrometheusRule) (ingress : Ingress) (r : PrometheusRule)
    (h : r ∈ (CreateFromIngress a decode ingress).rules) :
    r.ObjectMeta.OwnerReferences =
      [{ APIVersion := "extensions/v1beta1"
         Kind := "Ingress"
         Name := ingress.Name
         UID := ingress.UID
         Controller := some true
         BlockOwnerDeletion := some true }] ∧
    r.ObjectMeta.OwnerReferences =
      [NewControllerRef ingress
        { Group := SchemeGroupVersionGroup, Version := SchemeGroupVersionVersion,
          Kind := "Ingress" }] := by
  simp only [CreateFromIngress, createFromAnnotations_eq] at h
  obtain ⟨kv, _, hkv⟩ := List.mem_filterMap.1 (mem_collect_rendered _ r h)
  unfold renderedRule at hkv
  split at hkv
  · split at hkv
    · exact absurd hkv (by simp)
    · split at hkv
      · exact absurd hkv (by simp)
      · split at hkv
        · exact absurd hkv (by simp)
        · have hr := (Option.some.inj hkv).symm
          subst hr
          exact ⟨rfl, rfl⟩
  · exact absurd hkv (by simp)

/-- C7 at a concrete input: the decoded document declares a `Pod` as its owner;
the rule returned names the ingress `ns/foo` alone. -/
theorem createFromIngress_owner_reference_witness :
    (exampleDecode "ns foo-latency-rule 500").map (fun r => r.ObjectMeta.OwnerReferences) =
      .ok [⟨"v1", "Pod", "other", "uid-0", none, none⟩] ∧
    (fooRule "500").ObjectMeta.OwnerReferences =
      [⟨"extensions/v1beta1", "Ingress", "foo", "uid-1", some true, some true⟩] :=
  ⟨rfl,
    (createFromIngress_owner_reference { templates := [("X", latencyTemplate)] } exampleDecode
      (fooIngress [("com.uswitch.heimdall/X", "500")]) (fooRule "500") (by decide)).1⟩

/-! ## The parameter object (C10) -/

/-- C10: the templates executed by `CreateFromIngress` are, in iteration order,
those of the recognised annotations whose template is found, and the template of
the annotation `(k, v)` is executed with the parameter object whose identifier is
`namespace.name`, whose namespace, name and ingress are those of the ingress, and
whose threshold is `v`, the value of that annotation. -/
theorem createFromIngress_execute_params (a : PrometheusRuleTemplateManager)
    (decode : String → Except String PrometheusRule) (ingress : Ingress) :
    executions (CreateFromIngress a decode ingress).trace =
      ingress.Annotations.filterMap (fun kv =>
        if HasPrefix kv.1 heimPrefix then
          (mapGet a.templates (templateNameOf kv.1)).map (fun _ =>
            (templateNameOf kv.1,
              { Identifier := ingress.Namespace ++ "." ++ ingress.Name
                Threshold := kv.2
                Namespace := ingress.Namespace
                Name := ingress.Name
                Host := ""
                Value := ""
                Ingress := ingress }))
        else none) := by
  have hpar : ∀ v, paramsFor ingress v =
      { Identifier := ingress.Namespace ++ "." ++ ingress.Name
        Threshold := v
        Namespace := ingress.Namespace
        Name := ingress.Name
        Host := ""
        Value := ""
        Ingress := ingress } := fun _ => rfl
  simp only [CreateFromIngress, createFromAnnotations_eq, ← hpar]
  induction ingress.Annotations with
  | nil => rfl
  | cons kv rest ih =>
    have happ : ∀ l l' : List Event, executions (l ++ l') = executions l ++ executions l' := by
      intro l l'
      simp [executions, List.filterMap_append]
    rw [List.flatMap_cons, happ, ih, List.filterMap_cons]
    by_cases hp : HasPrefix kv.1 heimPrefix = true
    · cases hl : mapGet a.templates (templateNameOf kv.1) with
      | none => simp [annotationEvents, hp, hl, executions]
      | some template =>
        cases he : template.Execute (paramsFor ingress kv.2) with
        | error err => simp [annotationEvents, hp, hl, he, executions]
        | ok result =>
          cases hd : decode result with
          | error err => simp [annotationEvents, hp, hl, he, hd, executions]
          | ok decoded => simp [annotationEvents, hp, hl, he, hd, executions]
    · simp only [Bool.not_eq_true] at hp
      simp [annotationEvents, hp, executions]

/-- C10 at a concrete input: two annotations, the second with a template that
does not decode; each template is executed with the threshold of its own
annotation. -/
theorem createFromIngress_execute_params_witness :
    (executions (CreateFromIngress
      { templates := [("X", latencyTemplate), ("junk", garbageTemplate)] } exampleDecode
      (fooIngress [("com.uswitch.heimdall/X", "500"),
        ("com.uswitch.heimdall/junk", "7")])).trace).map
        (fun e => (e.1, e.2.Identifier, e.2.Namespace, e.2.Name, e.2.Threshold)) =
      [("X", "ns.foo", "ns", "foo", "500"), ("junk", "ns.foo", "ns", "foo", "7")] :=
  (congrArg (List.map fun e => (e.1, e.2.Identifier, e.2.Namespace, e.2.Name, e.2.Threshold))
    (createFromIngress_execute_params
      { templates := [("X", latencyTemplate), ("junk", garbageTemplate)] } exampleDecode
      (fooIngress [("com.uswitch.heimdall/X", "500"),
        ("com.uswitch.heimdall/junk", "7")]))).trans (by decide)

/-! ## Loading the library (C9) -/

/-- C9: `NewPrometheusRuleTemplateManager` returns an error exactly when the
scan fails, or no template file is found, or some matched file fails to
compile; in every other case it returns a manager whose map of templates is not
empty. A result is never both: one file that fails to compile fails the load. -/
theorem newManager_error_iff (glob : String → Except String (List String))
    (parseFiles : String → Except String Template) (directory : String) :
    ((∃ err, NewPrometheusRuleTemplateManager glob parseFiles directory = .error err) ↔
      loadFails glob parseFiles directory) ∧
    (¬ loadFails glob parseFiles directory →
      ∃ m, NewPrometheusRuleTemplateManager glob parseFiles directory = .ok m ∧
        m.templates ≠ [] ∧ 0 < m.templates.length) := by
  unfold NewPrometheusRuleTemplateManager loadFails
  cases hg : glob (directory ++ "/*.tmpl") with
  | error e => simp
  | ok templateFiles =>
    simp only []
    cases hl : loadTemplates parseFiles templateFiles [] with
    | error e =>
      obtain ⟨t, ht, hpt⟩ := loadTemplates_error _ _ _ _ hl
      have hf : templateFiles = [] ∨ ∃ t ∈ templateFiles, ∃ err, parseFiles t = .error err :=
        Or.inr ⟨t, ht, e, hpt⟩
      simp only [hf, not_true_eq_false, false_implies, and_true, iff_true]
      exact ⟨e, rfl⟩
    | ok templates =>
      obtain ⟨hall, hnil⟩ := loadTemplates_ok _ _ _ _ hl
      simp only []
      by_cases hlen : templates.length = 0
      · have hf : templateFiles = [] := (hnil (List.length_eq_zero.1 hlen)).1
        simp [hlen, hf]
      · have hne : templateFiles ≠ [] := by
          rintro rfl
          simp only [loadTemplates, Except.ok.injEq] at hl
          subst hl
          exact hlen rfl
        have hnf : ¬ (templateFiles = [] ∨
            ∃ t ∈ templateFiles, ∃ err, parseFiles t = .error err) := by
          rintro (h | ⟨t, ht, err, hpt⟩)
          · exact hne h
          · obtain ⟨tmpl, htm⟩ := hall t ht
            rw [htm] at hpt
            simp at hpt
        simp only [hlen, if_false, hnf, iff_false, not_exists, not_false_eq_true,
          forall_true_left]
        refine ⟨fun err h => by simp at h, _, rfl, ?_, ?_⟩
        · intro h
          have h' : templates = [] := h
          exact hlen (by simp [h'])
        · exact Nat.pos_of_ne_zero hlen

/-- C9 at concrete inputs: two files that compile give a manager with two
templates; with one more file that does not compile the load fails with the
error of that file, and no manager is returned; a scan that finds no file fails
with `no templates defined`. -/
theorem newManager_error_iff_witness :
    (∃ m, NewPrometheusRuleTemplateManager
        (exampleGlob ["templates/latency.tmpl", "templates/5xx-rate.tmpl"]) exampleParseFiles
        "templates" = .ok m ∧ m.templates ≠ [] ∧ 0 < m.templates.length) ∧
    NewPrometheusRuleTemplateManager
        (exampleGlob ["templates/latency.tmpl", "templates/bad.tmpl", "templates/5xx-rate.tmpl"])
        exampleParseFiles "templates" = .error "template: bad.tmpl:1: unexpected EOF" ∧
    NewPrometheusRuleTemplateManager (exampleGlob []) exampleParseFiles "templates" =
      .error "no templates defined" :=
  ⟨(newManager_error_iff
      (exampleGlob ["templates/latency.tmpl", "templates/5xx-rate.tmpl"]) exampleParseFiles
      "templates").2 (by
        unfold loadFails exampleGlob
        simp only []
        rintro (h | ⟨t, ht, err, hpt⟩)
        · simp at h
        · simp only [List.mem_cons, List.mem_singleton, List.not_mem_nil, or_false] at ht
          rcases ht with rfl | rfl <;> simp [exampleParseFiles] at hpt),
    rfl, rfl⟩

end Heimdall
